import Mathlib

/-!
# disk_read_seek: the read-skip benchmark loop

A shallow embedding of `src/disk_read_seek.cpp`.  The program opens one file,
advises the kernel of random access, then repeats `fread` of `BUFFER_SIZE`
bytes followed by `fseek` of `GAP_SIZE` bytes until an `fread` comes back
short, and prints the number of reads, the sum of the first eight bytes of
every block that was read, and the elapsed time.

The file is a regular file: a finite list of bytes, on a file system that
bounds the offsets a position may take.  The stream position, the `uint64_t`
accumulator and the `int` counter are explicit state; the two machine integers
are reduced after every update.  `fseek` may fail, and the loop does not look
at its result.
-/

namespace DiskReadSeek

/-! ## Data model -/

/-- One byte of a file. -/
abbrev Byte := Fin 256

/-- A regular file: its contents and the largest offset that the file system
lets a position take.  No file is longer than that limit. -/
structure File where
  bytes : List Byte
  offsetLimit : Nat
  sizeOk : bytes.length ≤ offsetLimit

/-- `const int BUFFER_SIZE = 1 << 16;` -/
def BUFFER_SIZE : Nat := 1 <<< 16

/-- `const int GAP_SIZE = 1 << 16;` -/
def GAP_SIZE : Nat := 1 <<< 16

/-- What is fixed when the program is compiled: the two global constants and
the byte order of the target, which decides how
`*reinterpret_cast<uint64_t*>(buffer)` reads eight bytes. -/
structure Build where
  bufferSize : Nat
  gapSize : Nat
  bigEndian : Bool
  deriving DecidableEq, Repr

/-- The build of the source as it stands, for a target of the given byte order. -/
def sourceBuild (bigEndian : Bool) : Build :=
  { bufferSize := BUFFER_SIZE, gapSize := GAP_SIZE, bigEndian := bigEndian }

/-- The variables the loop works on: the position indicator of `file`,
`uint64_t sum` and `int count`. -/
structure LoopState where
  pos : Nat
  sum : Nat
  count : Int
  deriving DecidableEq, Repr

/-- The state at `auto start = steady_clock::now();`: a freshly opened stream,
`sum = 0`, `count = 0`. -/
def initState : LoopState := { pos := 0, sum := 0, count := 0 }

/-! ## Machine arithmetic -/

/-- Reduction of an integer to the range of a 32-bit `int`, in two-complement representation. -/
def wrapInt32 (x : Int) : Int := (x + 2 ^ 31) % 2 ^ 32 - 2 ^ 31

/-- Little-endian value of a byte string: the first byte is the least significant. -/
def decodeLE : List Byte → Nat
  | [] => 0
  | b :: bs => b.val + 256 * decodeLE bs

/-- Big-endian value of a byte string: the first byte is the most significant. -/
def decodeBE (bs : List Byte) : Nat :=
  bs.foldl (fun acc b => acc * 256 + b.val) 0

/-- `*reinterpret_cast<uint64_t*>(buffer)`: the first eight bytes of the buffer
read as one unsigned integer in the byte order of the target.  The cast is
only defined when the buffer holds eight bytes, that is for
`BUFFER_SIZE >= 8`. -/
def loadU64 (bigEndian : Bool) (buffer : List Byte) : Nat :=
  if bigEndian then decodeBE (buffer.take 8) else decodeLE (buffer.take 8)

/-! ## The C library calls on a regular file -/

/-- `fread(buffer, size, 1, file)` at position `pos`: the number of complete
items read (`1` or `0`), the bytes that were stored in the buffer, and the
position afterwards.  A zero `size` reads nothing and returns `0`. -/
def fread (bytes : List Byte) (size : Nat) (pos : Nat) : Nat × List Byte × Nat :=
  let got := (bytes.drop pos).take size
  if size ≠ 0 ∧ got.length = size then (1, got, pos + size)
  else (0, got, pos + got.length)

/-- `fseek(file, offset, SEEK_CUR)` with a non-negative offset: the result of
the call and the position afterwards.  The position moves forward, also past
the end of the file, and the call returns `0`; when the target lies beyond
the offset limit of the file system the call returns `-1` and the position
stays where it was. -/
def fseek (limit : Nat) (pos : Nat) (offset : Nat) : Int × Nat :=
  if pos + offset ≤ limit then (0, pos + offset) else (-1, pos)

/-! ## The loop -/

/-- One evaluation of the loop condition and, when the read was complete, the
loop body: `++count; sum += *reinterpret_cast<uint64_t*>(buffer);
fseek(file, GAP_SIZE, SEEK_CUR);`.  The result of `fseek` is dropped, as in
the source; only the position it leaves counts.  `none` means the condition
was false and the loop is left. -/
def loopStep (b : Build) (file : File) (st : LoopState) : Option LoopState :=
  match fread file.bytes b.bufferSize st.pos with
  | (n, buffer, pos1) =>
    if n = 1 then
      some { pos := (fseek file.offsetLimit pos1 b.gapSize).2
             sum := (st.sum + loadU64 b.bigEndian buffer) % 2 ^ 64
             count := wrapInt32 (st.count + 1) }
    else none

/-- The `while` loop, allowed at most `fuel` evaluations of its condition,
that is at most `fuel` calls of `fread`.  `some st` is the state with which
the loop is left; `none` means the loop is still running after `fuel` calls. -/
def whileLoop (b : Build) (file : File) : Nat → LoopState → Option LoopState
  | 0, _ => none
  | fuel + 1, st =>
    match loopStep b file st with
    | none => some st
    | some st' => whileLoop b file fuel st'

/-! ## The program -/

/-- What the program cannot see in its own text: the file system as `fopen`
answers for a path (the file, or the text of `strerror(errno)`), the return value of `posix_fadvise` on the file opened
from a path, and the two readings of the steady clock in nanoseconds. -/
structure World where
  fopen : String → Except String File
  posix_fadvise : String → Int
  clockStart : Int
  clockEnd : Int

/-- The command line: `argv[0]` and the arguments after it, so that
`argc = args.length + 1`. -/
structure Invocation where
  progName : String
  args : List String

/-- What a run leaves behind: the lines written to standard output, each ended
by `endl`, and the exit status. -/
structure Result where
  stdout : List String
  exitCode : Int
  deriving DecidableEq, Repr

/-- The usage line of the argument check. -/
def usageLine (inv : Invocation) : String :=
  "Usage: " ++ inv.progName ++ " <test-file>"

/-- The three report lines, for the final loop state and the two clock readings;
`duration_cast<milliseconds>` truncates. -/
def reportLines (st : LoopState) (clockStart clockEnd : Int) : List String :=
  [ "# of reads: " ++ toString st.count,
    "Sum of reads: " ++ toString st.sum,
    "Elapsed milliseconds: " ++ toString ((clockEnd - clockStart).tdiv 1000000) ]

/-- The function `main`.  The loop is given `fuel` calls of `fread`; `none`
means that it had not finished within them. -/
def main (b : Build) (w : World) (inv : Invocation) (fuel : Nat) : Option Result :=
  match inv.args with
  | [path] =>
    match w.fopen path with
    | .error msg => some { stdout := [msg], exitCode := 1 }
    | .ok file =>
      if w.posix_fadvise path ≠ 0 then
        some { stdout := ["fadvise failed"], exitCode := 1 }
      else
        match whileLoop b file fuel initState with
        | none => none
        | some st =>
          some { stdout := reportLines st w.clockStart w.clockEnd, exitCode := 0 }
  | _ => some { stdout := [usageLine inv], exitCode := 1 }

/-! ## Quantities the claims speak of -/

/-- The number of block offsets `k * (B + G)` at which a whole block of `B`
bytes lies inside a file of `size` bytes. -/
def blocksIn (b : Build) (size : Nat) : Nat :=
  (size + b.gapSize) / (b.bufferSize + b.gapSize)

/-- The eight bytes the loop body adds for a block read at offset `off`: the
head of the buffer that `fread` filled from there. -/
def blockWord (b : Build) (file : File) (off : Nat) : Nat :=
  loadU64 b.bigEndian ((file.bytes.drop off).take b.bufferSize)

/-- The state after `n` rounds of a complete read and a successful skip,
started from `st`. -/
def afterRounds (b : Build) (file : File) (st : LoopState) (n : Nat) : LoopState :=
  { pos := st.pos + n * (b.bufferSize + b.gapSize)
    sum := (st.sum + ∑ k in Finset.range n,
              blockWord b file (st.pos + k * (b.bufferSize + b.gapSize))) % 2 ^ 64
    count := wrapInt32 (st.count + n) }

/-- The state in which the loop condition is evaluated for the `(k+1)`-th time,
that is after `k` executions of the loop body; `none` when the loop has been
left before. -/
def stateAt (b : Build) (file : File) : Nat → Option LoopState
  | 0 => some initState
  | k + 1 => (stateAt b file k).bind (loopStep b file)

/-- The state after `k` executions of the loop body, started from `st`; `none`
when the loop is left before. -/
def stepsFrom (b : Build) (file : File) (st : LoopState) : Nat → Option LoopState
  | 0 => some st
  | k + 1 => (loopStep b file st).bind (fun s => stepsFrom b file s k)

/-- Every `fseek` that the loop calls on the file returns `0`: in whatever
state the loop finds a complete read, the seek behind the block succeeds. -/
def EverySeekSucceeds (b : Build) (file : File) : Prop :=
  ∀ k st, stateAt b file k = some st →
    (fread file.bytes b.bufferSize st.pos).1 = 1 →
    (fseek file.offsetLimit (fread file.bytes b.bufferSize st.pos).2.2 b.gapSize).1 = 0

/-- The accumulator and the counter hold values of their machine types. -/
def InRange (st : LoopState) : Prop :=
  st.sum < 2 ^ 64 ∧ -2 ^ 31 ≤ st.count ∧ st.count < 2 ^ 31

/-! ## Concrete files and runs -/

/-- The largest value of a 64-bit `off_t`, taken as the offset limit of the
concrete files below. -/
def OFF_MAX : Nat := 2 ^ 63 - 1

/-- A file that is exactly one block long: `BUFFER_SIZE` zero bytes. -/
def oneBlockFile : File :=
  { bytes := List.replicate 65536 0
    offsetLimit := OFF_MAX
    sizeOk := by rw [List.length_replicate]; decide }

/-- A file of one block and one gap: `BUFFER_SIZE + GAP_SIZE` bytes, all `7`. -/
def blockAndGapFile : File :=
  { bytes := List.replicate 131072 7
    offsetLimit := OFF_MAX
    sizeOk := by rw [List.length_replicate]; decide }

/-- A file of three times `BUFFER_SIZE` bytes, all `0xFF`: it holds whole blocks at
offsets `0` and `131072`. -/
def allOnesFile : File :=
  { bytes := List.replicate 196608 255
    offsetLimit := OFF_MAX
    sizeOk := by rw [List.length_replicate]; decide }

/-- The empty file. -/
def emptyFile : File :=
  { bytes := []
    offsetLimit := OFF_MAX
    sizeOk := by decide }

/-- A file of five bytes, shorter than a block. -/
def shortFile : File :=
  { bytes := [1, 2, 3, 4, 5]
    offsetLimit := OFF_MAX
    sizeOk := by decide }

/-- A file of three blocks of eight bytes that fills its file system to the
limit: every seek beyond its end fails. -/
def tightFile : File :=
  { bytes := [1, 0, 0, 0, 0, 0, 0, 0, 2, 0, 0, 0, 0, 0, 0, 0, 4, 0, 0, 0, 0, 0, 0, 0]
    offsetLimit := 24
    sizeOk := by decide }

/-- A build with blocks of eight bytes and a gap of a hundred. -/
def wideGapBuild : Build := { bufferSize := 8, gapSize := 100, bigEndian := false }

/-- A world in which every path opens to `file`, the advice succeeds and the
clock reads `start` and `stop`. -/
def worldWith (file : File) (start stop : Int) : World :=
  { fopen := fun _ => .ok file
    posix_fadvise := fun _ => 0
    clockStart := start
    clockEnd := stop }

/-- The command line of the header comment: `./a.out testfile.dat`. -/
def usualInvocation : Invocation := { progName := "./a.out", args := ["testfile.dat"] }

/-- Another command line for the same program, under another name and path. -/
def otherInvocation : Invocation := { progName := "/usr/local/bin/bench", args := ["copy.dat"] }

/-- A command line without arguments. -/
def bareInvocation : Invocation := { progName := "./a.out", args := [] }

/-! ## Lemmas on the library calls and one loop step -/

theorem length_got (bytes : List Byte) (size pos : Nat) :
    ((bytes.drop pos).take size).length = min size (bytes.length - pos) := by
  rw [List.length_take, List.length_drop]

theorem fread_full (bytes : List Byte) (size pos : Nat)
    (hB : 0 < size) (h : pos + size ≤ bytes.length) :
    fread bytes size pos = (1, (bytes.drop pos).take size, pos + size) := by
  have hlen : ((bytes.drop pos).take size).length = size := by
    rw [length_got]; omega
  have hne : size ≠ 0 := by omega
  unfold fread
  exact if_pos ⟨hne, hlen⟩

theorem fread_short (bytes : List Byte) (size pos : Nat)
    (h : size = 0 ∨ bytes.length < pos + size) :
    fread bytes size pos =
      (0, (bytes.drop pos).take size, pos + ((bytes.drop pos).take size).length) := by
  have hno : ¬ (size ≠ 0 ∧ ((bytes.drop pos).take size).length = size) := by
    rintro ⟨h0, hl⟩
    rw [length_got] at hl
    omega
  unfold fread
  exact if_neg hno

theorem fread_one_iff (bytes : List Byte) (size pos : Nat) :
    (fread bytes size pos).1 = 1 ↔ 0 < size ∧ pos + size ≤ bytes.length := by
  constructor
  · intro h
    by_contra hcon
    rw [fread_short bytes size pos (by omega)] at h
    cases h
  · rintro ⟨h0, h1⟩
    rw [fread_full bytes size pos h0 h1]

theorem fseek_ok (limit pos offset : Nat) (h : pos + offset ≤ limit) :
    fseek limit pos offset = (0, pos + offset) := by
  unfold fseek
  exact if_pos h

theorem fseek_fail (limit pos offset : Nat) (h : limit < pos + offset) :
    fseek limit pos offset = (-1, pos) := by
  unfold fseek
  exact if_neg (by omega)

theorem fseek_result_zero_iff (limit pos offset : Nat) :
    (fseek limit pos offset).1 = 0 ↔ pos + offset ≤ limit := by
  by_cases h : pos + offset ≤ limit
  · rw [fseek_ok limit pos offset h]; exact ⟨fun _ => h, fun _ => rfl⟩
  · rw [fseek_fail limit pos offset (by omega)]
    exact ⟨fun hc => (by cases hc), fun hc => absurd hc h⟩

theorem fseek_pos_ge (limit pos offset : Nat) : pos ≤ (fseek limit pos offset).2 := by
  by_cases h : pos + offset ≤ limit
  · rw [fseek_ok limit pos offset h]; exact Nat.le_add_right _ _
  · rw [fseek_fail limit pos offset (by omega)]

theorem loopStep_full (b : Build) (file : File) (st : LoopState)
    (hB : 0 < b.bufferSize) (h : st.pos + b.bufferSize ≤ file.bytes.length) :
    loopStep b file st =
      some { pos := (fseek file.offsetLimit (st.pos + b.bufferSize) b.gapSize).2
             sum := (st.sum + blockWord b file st.pos) % 2 ^ 64
             count := wrapInt32 (st.count + 1) } := by
  unfold loopStep
  rw [fread_full file.bytes b.bufferSize st.pos hB h]
  simp [blockWord]

theorem loopStep_short (b : Build) (file : File) (st : LoopState)
    (h : file.bytes.length < st.pos + b.bufferSize) :
    loopStep b file st = none := by
  unfold loopStep
  rw [fread_short file.bytes b.bufferSize st.pos (Or.inr h)]
  simp

theorem loopStep_zero (b : Build) (file : File) (st : LoopState)
    (h : b.bufferSize = 0) :
    loopStep b file st = none := by
  unfold loopStep
  rw [fread_short file.bytes b.bufferSize st.pos (Or.inl h)]
  simp

theorem loopStep_eq_some_iff (b : Build) (file : File) (st st' : LoopState) :
    loopStep b file st = some st' ↔
      (0 < b.bufferSize ∧ st.pos + b.bufferSize ≤ file.bytes.length ∧
        st' = { pos := (fseek file.offsetLimit (st.pos + b.bufferSize) b.gapSize).2
                sum := (st.sum + blockWord b file st.pos) % 2 ^ 64
                count := wrapInt32 (st.count + 1) }) := by
  constructor
  · intro hs
    by_cases hB : b.bufferSize = 0
    · rw [loopStep_zero b file st hB] at hs; cases hs
    · by_cases hle : st.pos + b.bufferSize ≤ file.bytes.length
      · rw [loopStep_full b file st (Nat.pos_of_ne_zero hB) hle] at hs
        exact ⟨Nat.pos_of_ne_zero hB, hle, (Option.some.inj hs).symm⟩
      · rw [loopStep_short b file st (by omega)] at hs; cases hs
  · rintro ⟨hB, hle, rfl⟩
    exact loopStep_full b file st hB hle

theorem loopStep_skip (b : Build) (file : File) (st : LoopState)
    (hB : 0 < b.bufferSize) (h : st.pos + b.bufferSize ≤ file.bytes.length)
    (hL : st.pos + b.bufferSize + b.gapSize ≤ file.offsetLimit) :
    loopStep b file st =
      some { pos := st.pos + b.bufferSize + b.gapSize
             sum := (st.sum + blockWord b file st.pos) % 2 ^ 64
             count := wrapInt32 (st.count + 1) } := by
  rw [loopStep_full b file st hB h, fseek_ok _ _ _ hL]

theorem wrapInt32_of_range (x : Int) (h0 : -2 ^ 31 ≤ x) (h1 : x < 2 ^ 31) :
    wrapInt32 x = x := by
  unfold wrapInt32; omega

/-! ## Rounds of read and skip -/

theorem inRange_initState : InRange initState := by
  unfold InRange initState; norm_num

theorem inRange_afterRounds (b : Build) (file : File) (st : LoopState) (n : Nat) :
    InRange (afterRounds b file st n) := by
  unfold InRange afterRounds wrapInt32
  refine ⟨Nat.mod_lt _ (by norm_num), ?_, ?_⟩ <;> dsimp only <;> omega

theorem afterRounds_zero (b : Build) (file : File) (st : LoopState) (h : InRange st) :
    afterRounds b file st 0 = st := by
  obtain ⟨h1, h2, h3⟩ := h
  cases st with
  | mk p s c =>
    simp only [afterRounds, Finset.range_zero, Finset.sum_empty, Nat.zero_mul, Nat.add_zero,
      Nat.cast_zero, add_zero]
    dsimp only at h1 h2 h3
    rw [Nat.mod_eq_of_lt h1, wrapInt32_of_range c h2 h3]

theorem afterRounds_sum_step (b : Build) (file : File) (st : LoopState) (k : Nat) :
    ((afterRounds b file st k).sum + blockWord b file (afterRounds b file st k).pos) % 2 ^ 64 =
      (afterRounds b file st (k + 1)).sum := by
  simp only [afterRounds, Finset.sum_range_succ]
  omega

theorem afterRounds_count_step (b : Build) (file : File) (st : LoopState) (k : Nat) :
    wrapInt32 ((afterRounds b file st k).count + 1) = (afterRounds b file st (k + 1)).count := by
  simp only [afterRounds]
  unfold wrapInt32
  push_cast
  omega

theorem afterRounds_pos_step (b : Build) (file : File) (st : LoopState) (k : Nat) :
    (afterRounds b file st k).pos + b.bufferSize + b.gapSize =
      (afterRounds b file st (k + 1)).pos := by
  simp only [afterRounds, Nat.succ_mul]
  omega

theorem afterRounds_step (b : Build) (file : File) (st : LoopState) (k : Nat) :
    ({ pos := (afterRounds b file st k).pos + b.bufferSize + b.gapSize
       sum := ((afterRounds b file st k).sum +
                blockWord b file (afterRounds b file st k).pos) % 2 ^ 64
       count := wrapInt32 ((afterRounds b file st k).count + 1) } : LoopState) =
      afterRounds b file st (k + 1) := by
  rw [afterRounds_sum_step, afterRounds_count_step, afterRounds_pos_step]

theorem afterRounds_count (b : Build) (file : File) (n : Nat) (h : n < 2 ^ 31) :
    (afterRounds b file initState n).count = (n : Int) := by
  simp only [afterRounds, initState, zero_add]
  apply wrapInt32_of_range <;> omega

theorem afterRounds_pos (b : Build) (file : File) (n : Nat) :
    (afterRounds b file initState n).pos = n * (b.bufferSize + b.gapSize) := by
  simp [afterRounds, initState]

/-! ## Counting the blocks -/

theorem blocksIn_lt_iff (b : Build) (size k : Nat) (hB : 0 < b.bufferSize) :
    k < blocksIn b size ↔ k * (b.bufferSize + b.gapSize) + b.bufferSize ≤ size := by
  unfold blocksIn
  have hpos : 0 < b.bufferSize + b.gapSize := by omega
  rw [Nat.lt_iff_add_one_le, Nat.le_div_iff_mul_le hpos]
  have : (k + 1) * (b.bufferSize + b.gapSize) =
      k * (b.bufferSize + b.gapSize) + b.bufferSize + b.gapSize := by ring
  rw [this]
  omega

theorem blocksIn_le_size (b : Build) (size : Nat) (hB : 0 < b.bufferSize) :
    blocksIn b size ≤ size := by
  by_contra hlt
  have h1 : size < blocksIn b size := by omega
  have h2 := (blocksIn_lt_iff b size size hB).1 h1
  have h3 : size * 1 ≤ size * (b.bufferSize + b.gapSize) :=
    Nat.mul_le_mul_left size (by omega)
  omega

theorem blocksIn_le_quotient_succ (b : Build) (size : Nat) (hB : 0 < b.bufferSize) :
    blocksIn b size ≤ size / (b.bufferSize + b.gapSize) + 1 := by
  have hpos : 0 < b.bufferSize + b.gapSize := by omega
  by_contra hlt
  have h1 : size / (b.bufferSize + b.gapSize) + 1 < blocksIn b size := by omega
  have h2 := (blocksIn_lt_iff b size _ hB).1 h1
  have h4 : size < (size / (b.bufferSize + b.gapSize) + 1) * (b.bufferSize + b.gapSize) :=
    Nat.lt_mul_of_div_lt (Nat.lt_succ_self _) hpos
  omega

theorem blocksIn_by_remainder (b : Build) (size : Nat) (hB : 0 < b.bufferSize) :
    blocksIn b size = size / (b.bufferSize + b.gapSize) +
      (if size % (b.bufferSize + b.gapSize) < b.bufferSize then 0 else 1) := by
  have hpos : 0 < b.bufferSize + b.gapSize := by omega
  have hdm := Nat.div_add_mod size (b.bufferSize + b.gapSize)
  have hmod := Nat.mod_lt size hpos
  set q := size / (b.bufferSize + b.gapSize) with hq
  set r := size % (b.bufferSize + b.gapSize) with hr
  have hmul : (b.bufferSize + b.gapSize) * q = q * (b.bufferSize + b.gapSize) := Nat.mul_comm _ _
  have hsucc : (q + 1) * (b.bufferSize + b.gapSize) =
      q * (b.bufferSize + b.gapSize) + b.bufferSize + b.gapSize := by ring
  split
  · -- a remainder shorter than a block: exactly `q` blocks
    apply Nat.le_antisymm
    · by_contra hlt
      have h2 := (blocksIn_lt_iff b size q hB).1 (by omega)
      omega
    · by_contra hlt
      have hq0 : 0 < q := by omega
      have h2 := (blocksIn_lt_iff b size (q - 1) hB).not.1 (by omega)
      have hq1 : (q - 1 + 1) * (b.bufferSize + b.gapSize) =
          (q - 1) * (b.bufferSize + b.gapSize) + b.bufferSize + b.gapSize := by ring
      rw [Nat.sub_add_cancel hq0] at hq1
      omega
  · apply Nat.le_antisymm
    · exact blocksIn_le_quotient_succ b size hB
    · have h2 := (blocksIn_lt_iff b size q hB).2 (by omega)
      omega

/-! ## The states the loop passes through -/

theorem stepsFrom_succ_back (b : Build) (file : File) :
    ∀ (k : Nat) (st : LoopState),
      stepsFrom b file st (k + 1) = (stepsFrom b file st k).bind (loopStep b file) := by
  intro k
  induction k with
  | zero =>
    intro st
    simp [stepsFrom]
  | succ k ih =>
    intro st
    rw [stepsFrom]
    cases hs : loopStep b file st with
    | none => simp [stepsFrom, hs]
    | some s1 =>
      rw [Option.some_bind, ih s1]
      conv_rhs => rw [stepsFrom, hs, Option.some_bind]

theorem stateAt_eq_stepsFrom (b : Build) (file : File) :
    ∀ k, stateAt b file k = stepsFrom b file initState k := by
  intro k
  induction k with
  | zero => rfl
  | succ k ih => rw [stateAt, ih, stepsFrom_succ_back]

/-- The loop and the states it passes through: when the body can run `k` times
from `st0` and the condition is false in the state then reached, the loop is
left in that state with more than `k` calls of `fread`, and is still running
with `k` calls or fewer. -/
theorem whileLoop_of_stepsFrom (b : Build) (file : File) :
    ∀ (k : Nat) (st0 st : LoopState) (fuel : Nat),
      stepsFrom b file st0 k = some st → loopStep b file st = none →
      whileLoop b file fuel st0 = if k < fuel then some st else none := by
  intro k
  induction k with
  | zero =>
    intro st0 st fuel h hnone
    simp only [stepsFrom, Option.some.injEq] at h
    subst h
    cases fuel with
    | zero => simp [whileLoop]
    | succ f => simp [whileLoop, hnone]
  | succ k ih =>
    intro st0 st fuel h hnone
    rw [stepsFrom] at h
    cases hs : loopStep b file st0 with
    | none => rw [hs] at h; cases h
    | some s1 =>
      rw [hs, Option.some_bind] at h
      cases fuel with
      | zero => simp [whileLoop]
      | succ f =>
        simp only [whileLoop, hs]
        rw [ih s1 st f h hnone]
        simp

theorem whileLoop_of_stateAt (b : Build) (file : File) (k fuel : Nat) (st : LoopState)
    (h : stateAt b file k = some st) (hnone : loopStep b file st = none) :
    whileLoop b file fuel initState = if k < fuel then some st else none :=
  whileLoop_of_stepsFrom b file k initState st fuel
    (by rw [← stateAt_eq_stepsFrom]; exact h) hnone

/-- The loop comes to an end on every file: from any state the condition is
false after at most as many executions of the body as bytes lie ahead. -/
theorem stepsFrom_exit (b : Build) (file : File) :
    ∀ (m : Nat) (st0 : LoopState), file.bytes.length - st0.pos ≤ m →
      ∃ k st, k ≤ m ∧ stepsFrom b file st0 k = some st ∧ loopStep b file st = none := by
  intro m
  induction m with
  | zero =>
    intro st0 hm
    cases hs : loopStep b file st0 with
    | none => exact ⟨0, st0, Nat.le_refl _, rfl, hs⟩
    | some s1 =>
      obtain ⟨hB, hle, _⟩ := (loopStep_eq_some_iff b file st0 s1).1 hs
      omega
  | succ m ih =>
    intro st0 hm
    cases hs : loopStep b file st0 with
    | none => exact ⟨0, st0, Nat.zero_le _, rfl, hs⟩
    | some s1 =>
      obtain ⟨hB, hle, hs1⟩ := (loopStep_eq_some_iff b file st0 s1).1 hs
      have hpos : st0.pos + b.bufferSize ≤ s1.pos := by
        rw [hs1]
        exact fseek_pos_ge _ _ _
      obtain ⟨k, st, hk, hsteps, hnone⟩ := ih s1 (by omega)
      refine ⟨k + 1, st, Nat.succ_le_succ hk, ?_, hnone⟩
      rw [stepsFrom, hs, Option.some_bind]
      exact hsteps

theorem loop_exit (b : Build) (file : File) :
    ∃ k st, k ≤ file.bytes.length ∧ stateAt b file k = some st ∧
      loopStep b file st = none := by
  obtain ⟨k, st, hk, hsteps, hnone⟩ :=
    stepsFrom_exit b file file.bytes.length initState (Nat.sub_le _ _)
  exact ⟨k, st, hk, by rw [stateAt_eq_stepsFrom]; exact hsteps, hnone⟩

theorem whileLoop_final (b : Build) (file : File) :
    ∃ k st, stateAt b file k = some st ∧ loopStep b file st = none ∧
      ∀ fuel, file.bytes.length < fuel → whileLoop b file fuel initState = some st := by
  obtain ⟨k, st, hk, hst, hnone⟩ := loop_exit b file
  refine ⟨k, st, hst, hnone, fun fuel hfuel => ?_⟩
  rw [whileLoop_of_stateAt b file k fuel st hst hnone, if_pos (by omega)]

theorem stateAt_inRange (b : Build) (file : File) :
    ∀ k st, stateAt b file k = some st → InRange st := by
  intro k
  induction k with
  | zero =>
    intro st h
    simp only [stateAt, Option.some.injEq] at h
    subst h
    exact inRange_initState
  | succ k ih =>
    intro st h
    rw [stateAt] at h
    cases hk : stateAt b file k with
    | none => rw [hk] at h; cases h
    | some st0 =>
      rw [hk, Option.some_bind] at h
      obtain ⟨_, _, rfl⟩ := (loopStep_eq_some_iff b file st0 st).1 h
      unfold InRange wrapInt32
      refine ⟨Nat.mod_lt _ (by norm_num), ?_, ?_⟩ <;> dsimp only <;> omega

/-! ## The loop in closed form -/

theorem stateAt_of_le (b : Build) (file : File) (hB : 0 < b.bufferSize) :
    ∀ k, k ≤ blocksIn b file.bytes.length →
      k * (b.bufferSize + b.gapSize) ≤ file.offsetLimit →
      stateAt b file k = some (afterRounds b file initState k) := by
  intro k
  induction k with
  | zero =>
    intro _ _
    simp [stateAt, afterRounds_zero b file initState inRange_initState]
  | succ k ih =>
    intro hk hL
    have hlt : k < blocksIn b file.bytes.length := hk
    have hfull := (blocksIn_lt_iff b file.bytes.length k hB).1 hlt
    have hmul : (k + 1) * (b.bufferSize + b.gapSize) =
        k * (b.bufferSize + b.gapSize) + b.bufferSize + b.gapSize := by ring
    rw [stateAt, ih (Nat.le_of_lt hlt) (by omega), Option.some_bind]
    rw [loopStep_skip b file _ hB (by rw [afterRounds_pos]; exact hfull)
      (by rw [afterRounds_pos]; omega)]
    rw [afterRounds_step]

theorem stateAt_of_lt (b : Build) (file : File) (hB : 0 < b.bufferSize)
    (k : Nat) (hk : k < blocksIn b file.bytes.length) :
    stateAt b file k = some (afterRounds b file initState k) := by
  have hfull := (blocksIn_lt_iff b file.bytes.length k hB).1 hk
  have := file.sizeOk
  exact stateAt_of_le b file hB k (Nat.le_of_lt hk) (by omega)

theorem loopStep_afterRounds_last (b : Build) (file : File) :
    loopStep b file (afterRounds b file initState (blocksIn b file.bytes.length)) = none := by
  by_cases hB : b.bufferSize = 0
  · exact loopStep_zero b file _ hB
  · have hB' : 0 < b.bufferSize := Nat.pos_of_ne_zero hB
    have := (blocksIn_lt_iff b file.bytes.length (blocksIn b file.bytes.length) hB').not.1
      (Nat.lt_irrefl _)
    apply loopStep_short
    rw [afterRounds_pos]
    omega

theorem room_of_everySeekSucceeds (b : Build) (file : File) (hB : 0 < b.bufferSize)
    (hseek : EverySeekSucceeds b file) :
    blocksIn b file.bytes.length * (b.bufferSize + b.gapSize) ≤ file.offsetLimit := by
  by_cases h0 : blocksIn b file.bytes.length = 0
  · rw [h0]; omega
  · obtain ⟨m, hm⟩ : ∃ m, blocksIn b file.bytes.length = m + 1 :=
      ⟨blocksIn b file.bytes.length - 1, by omega⟩
    have hlt : m < blocksIn b file.bytes.length := by omega
    have hfull := (blocksIn_lt_iff b file.bytes.length m hB).1 hlt
    have hmul : (m + 1) * (b.bufferSize + b.gapSize) =
        m * (b.bufferSize + b.gapSize) + b.bufferSize + b.gapSize := by ring
    have hst := stateAt_of_lt b file hB m hlt
    have hread : (afterRounds b file initState m).pos + b.bufferSize ≤ file.bytes.length := by
      rw [afterRounds_pos]; exact hfull
    have h1 := hseek m _ hst ((fread_one_iff _ _ _).2 ⟨hB, hread⟩)
    rw [fread_full _ _ _ hB hread] at h1
    dsimp only at h1
    have h2 := (fseek_result_zero_iff _ _ _).1 h1
    rw [afterRounds_pos] at h2
    rw [hm]
    omega

theorem everySeekSucceeds_of_room (b : Build) (file : File)
    (h : file.bytes.length + b.gapSize ≤ file.offsetLimit) :
    EverySeekSucceeds b file := by
  intro k st _ hread
  obtain ⟨hB, hle⟩ := (fread_one_iff _ _ _).1 hread
  rw [fread_full _ _ _ hB hle]
  dsimp only
  exact (fseek_result_zero_iff _ _ _).2 (by omega)

theorem whileLoop_result (b : Build) (file : File) (fuel : Nat)
    (hB : 0 < b.bufferSize)
    (hL : blocksIn b file.bytes.length * (b.bufferSize + b.gapSize) ≤ file.offsetLimit)
    (hfuel : blocksIn b file.bytes.length < fuel) :
    whileLoop b file fuel initState =
      some (afterRounds b file initState (blocksIn b file.bytes.length)) := by
  rw [whileLoop_of_stateAt b file _ fuel _
    (stateAt_of_le b file hB _ (Nat.le_refl _) hL) (loopStep_afterRounds_last b file),
    if_pos hfuel]

theorem whileLoop_too_short (b : Build) (file : File) (fuel : Nat)
    (hB : 0 < b.bufferSize)
    (hL : blocksIn b file.bytes.length * (b.bufferSize + b.gapSize) ≤ file.offsetLimit)
    (hfuel : fuel ≤ blocksIn b file.bytes.length) :
    whileLoop b file fuel initState = none := by
  rw [whileLoop_of_stateAt b file _ fuel _
    (stateAt_of_le b file hB _ (Nat.le_refl _) hL) (loopStep_afterRounds_last b file),
    if_neg (by omega)]

/-! ## Decoding eight bytes -/

theorem decodeLE_lt (bs : List Byte) : decodeLE bs < 256 ^ bs.length := by
  induction bs with
  | nil => simp [decodeLE]
  | cons x xs ih =>
    have hx := x.isLt
    simp only [decodeLE, List.length_cons, pow_succ]
    omega

theorem foldl_decode_lt (bs : List Byte) :
    ∀ acc n, acc < 256 ^ n →
      bs.foldl (fun (a : Nat) (x : Byte) => a * 256 + x.val) acc < 256 ^ (n + bs.length) := by
  induction bs with
  | nil => intro acc n h; simpa using h
  | cons x xs ih =>
    intro acc n h
    have hx := x.isLt
    have h1 : acc * 256 + x.val < 256 ^ (n + 1) := by
      rw [pow_succ]; omega
    have := ih (acc * 256 + x.val) (n + 1) h1
    simpa [List.foldl_cons, Nat.add_assoc, Nat.add_comm 1] using this

theorem decodeBE_lt (bs : List Byte) : decodeBE bs < 256 ^ bs.length := by
  have := foldl_decode_lt bs 0 0 (by norm_num)
  simpa [decodeBE] using this

theorem loadU64_lt (e : Bool) (buffer : List Byte) : loadU64 e buffer < 2 ^ 64 := by
  have hlen : (buffer.take 8).length ≤ 8 := by
    rw [List.length_take]; omega
  have hpow : (256 : Nat) ^ (buffer.take 8).length ≤ 256 ^ 8 :=
    Nat.pow_le_pow_right (by norm_num) hlen
  have h8 : (256 : Nat) ^ 8 = 2 ^ 64 := by norm_num
  unfold loadU64
  split
  · have := decodeBE_lt (buffer.take 8); omega
  · have := decodeLE_lt (buffer.take 8); omega

theorem blockWord_lt (b : Build) (file : File) (off : Nat) : blockWord b file off < 2 ^ 64 :=
  loadU64_lt _ _

theorem BUFFER_SIZE_eq : BUFFER_SIZE = 65536 := by decide

theorem GAP_SIZE_eq : GAP_SIZE = 65536 := by decide

theorem OFF_MAX_eq : OFF_MAX = 9223372036854775807 := by decide

theorem sourceBuild_bufferSize (e : Bool) : (sourceBuild e).bufferSize = 65536 := by
  simp only [sourceBuild, BUFFER_SIZE_eq]

theorem sourceBuild_gapSize (e : Bool) : (sourceBuild e).gapSize = 65536 := by
  simp only [sourceBuild, GAP_SIZE_eq]

theorem oneBlockFile_length : oneBlockFile.bytes.length = 65536 := by
  show (List.replicate 65536 (0 : Byte)).length = 65536
  exact List.length_replicate _ _

theorem allOnesFile_length : allOnesFile.bytes.length = 196608 := by
  show (List.replicate 196608 (255 : Byte)).length = 196608
  exact List.length_replicate _ _

theorem oneBlockFile_limit : oneBlockFile.offsetLimit = 9223372036854775807 := OFF_MAX_eq

theorem blockAndGapFile_limit : blockAndGapFile.offsetLimit = 9223372036854775807 := OFF_MAX_eq

theorem allOnesFile_limit : allOnesFile.offsetLimit = 9223372036854775807 := OFF_MAX_eq

theorem sourceBuild_blocks_oneBlockFile (e : Bool) :
    blocksIn (sourceBuild e) oneBlockFile.bytes.length = 1 := by
  simp only [blocksIn, sourceBuild_bufferSize, sourceBuild_gapSize, oneBlockFile_length]

theorem sourceBuild_blocks_allOnesFile (e : Bool) :
    blocksIn (sourceBuild e) allOnesFile.bytes.length = 2 := by
  simp only [blocksIn, sourceBuild_bufferSize, sourceBuild_gapSize, allOnesFile_length]

theorem everySeekSucceeds_oneBlockFile (e : Bool) :
    EverySeekSucceeds (sourceBuild e) oneBlockFile := by
  apply everySeekSucceeds_of_room
  rw [oneBlockFile_length, sourceBuild_gapSize, oneBlockFile_limit]
  norm_num

theorem blockWord_allOnesFile (e : Bool) (off : Nat) (h : off + 65536 ≤ 196608) :
    blockWord (sourceBuild e) allOnesFile off = 2 ^ 64 - 1 := by
  have hmin : min 8 (min 65536 (196608 - off)) = 8 := by omega
  have hbytes : allOnesFile.bytes = List.replicate 196608 255 := rfl
  unfold blockWord loadU64
  rw [hbytes, sourceBuild_bufferSize, List.drop_replicate, List.take_replicate,
    List.take_replicate, hmin]
  cases e
  · decide
  · decide

theorem loopStep_allOnesFile_first :
    loopStep (sourceBuild false) allOnesFile initState =
      some { pos := 131072, sum := 2 ^ 64 - 1, count := 1 } := by
  rw [loopStep_skip _ _ _ (by rw [sourceBuild_bufferSize]; norm_num)
    (by rw [sourceBuild_bufferSize, allOnesFile_length]; simp [initState])
    (by rw [sourceBuild_bufferSize, sourceBuild_gapSize, allOnesFile_limit]; simp [initState])]
  rw [blockWord_allOnesFile false _ (by simp [initState])]
  simp only [sourceBuild_bufferSize, sourceBuild_gapSize, initState]
  rfl

theorem loopStep_allOnesFile_second :
    loopStep (sourceBuild false) allOnesFile { pos := 131072, sum := 2 ^ 64 - 1, count := 1 } =
      some { pos := 262144, sum := 2 ^ 64 - 2, count := 2 } := by
  rw [loopStep_skip _ _ _ (by rw [sourceBuild_bufferSize]; norm_num)
    (by rw [sourceBuild_bufferSize, allOnesFile_length])
    (by rw [sourceBuild_bufferSize, sourceBuild_gapSize, allOnesFile_limit]; norm_num)]
  rw [blockWord_allOnesFile false _ (by norm_num)]
  simp only [sourceBuild_bufferSize, sourceBuild_gapSize]
  rfl

theorem loopStep_allOnesFile_third :
    loopStep (sourceBuild false) allOnesFile { pos := 262144, sum := 2 ^ 64 - 2, count := 2 } =
      none := by
  apply loopStep_short
  rw [sourceBuild_bufferSize, allOnesFile_length]
  norm_num

theorem stateAt_allOnesFile_two :
    stateAt (sourceBuild false) allOnesFile 2 =
      some { pos := 262144, sum := 2 ^ 64 - 2, count := 2 } := by
  rw [stateAt, stateAt, stateAt, Option.some_bind, loopStep_allOnesFile_first,
    Option.some_bind, loopStep_allOnesFile_second]

theorem whileLoop_allOnesFile (fuel : Nat) (h : 2 < fuel) :
    whileLoop (sourceBuild false) allOnesFile fuel initState =
      some { pos := 262144, sum := 2 ^ 64 - 2, count := 2 } := by
  rw [whileLoop_of_stateAt _ _ 2 fuel _ stateAt_allOnesFile_two loopStep_allOnesFile_third,
    if_pos h]

/-- A failed seek leaves the position behind the block, and the loop reads on
from there: with a gap of a hundred bytes on a file of 24 bytes that reaches
the offset limit, every seek fails and all three blocks are read. -/
theorem failed_seek_reads_on :
    (fseek tightFile.offsetLimit 8 wideGapBuild.gapSize).1 = -1 ∧
      blocksIn wideGapBuild tightFile.bytes.length = 1 ∧
      whileLoop wideGapBuild tightFile 4 initState = some { pos := 24, sum := 7, count := 3 } := by
  decide

/-! ## The program -/

theorem main_report (b : Build) (w : World) (inv : Invocation) (fuel : Nat)
    (path : String) (file : File) (st : LoopState)
    (hargs : inv.args = [path]) (hopen : w.fopen path = .ok file)
    (hadv : w.posix_fadvise path = 0)
    (hloop : whileLoop b file fuel initState = some st) :
    main b w inv fuel =
      some { stdout := reportLines st w.clockStart w.clockEnd, exitCode := 0 } := by
  unfold main
  rw [hargs]
  simp only [hopen, hadv, ne_eq, not_true_eq_false, if_false, hloop]

theorem main_usage (b : Build) (w : World) (inv : Invocation) (fuel : Nat)
    (hargs : inv.args.length ≠ 1) :
    main b w inv fuel = some { stdout := [usageLine inv], exitCode := 1 } := by
  unfold main
  split
  · next path hp => rw [hp] at hargs; exact absurd rfl hargs
  · rfl

/-! ## The claims -/

/-- C1, counterexample.  On a file of exactly `BUFFER_SIZE = 65536` bytes the
loop of the source build ends with `count = 1`, while
`floor(S / (B + G)) = floor(65536 / 131072) = 0`. -/
theorem count_is_not_size_quotient :
    ∃ st, whileLoop (sourceBuild false) oneBlockFile 2 initState = some st ∧
      st.count = 1 ∧
      oneBlockFile.bytes.length / (BUFFER_SIZE + GAP_SIZE) = 0 ∧
      st.count ≠ ((oneBlockFile.bytes.length / (BUFFER_SIZE + GAP_SIZE) : Nat) : Int) := by
  have hB : 0 < (sourceBuild false).bufferSize := by
    rw [sourceBuild_bufferSize]; norm_num
  have hn := sourceBuild_blocks_oneBlockFile false
  have hL := room_of_everySeekSucceeds _ _ hB (everySeekSucceeds_oneBlockFile false)
  refine ⟨_, whileLoop_result (sourceBuild false) oneBlockFile 2 hB hL
    (by rw [hn]; norm_num), ?_⟩
  rw [hn]
  have hc := afterRounds_count (sourceBuild false) oneBlockFile 1 (by norm_num)
  have hq : oneBlockFile.bytes.length / (BUFFER_SIZE + GAP_SIZE) = 0 := by
    simp only [oneBlockFile_length, BUFFER_SIZE_eq, GAP_SIZE_eq]
  refine ⟨by simpa using hc, hq, ?_⟩
  rw [hc, hq]
  norm_num

/-- C1, amended.  For a positive read size `B`, a file of `S` bytes on which
every seek succeeds and whose count fits an `int`, and enough calls of
`fread`, the loop ends with `count = floor(S / (B + G))` when
`S mod (B + G) < B` and with `count = floor(S / (B + G)) + 1` otherwise.  It
reads at the positions `0, B+G, 2(B+G), ...`, a whole block lying at each, and
it stops at the first such position where fewer than `B` bytes remain. -/
theorem count_by_remainder (b : Build) (file : File) (fuel : Nat)
    (hB : 0 < b.bufferSize)
    (hseek : EverySeekSucceeds b file)
    (hint : file.bytes.length / (b.bufferSize + b.gapSize) +
      (if file.bytes.length % (b.bufferSize + b.gapSize) < b.bufferSize then 0 else 1) < 2 ^ 31)
    (hfuel : file.bytes.length < fuel) :
    ∃ st, whileLoop b file fuel initState = some st ∧
      st.count = ((file.bytes.length / (b.bufferSize + b.gapSize) +
        (if file.bytes.length % (b.bufferSize + b.gapSize) < b.bufferSize
          then 0 else 1) : Nat) : Int) ∧
      (∀ k : Nat, (k : Int) < st.count →
        ∃ s, stateAt b file k = some s ∧ s.pos = k * (b.bufferSize + b.gapSize) ∧
          s.pos + b.bufferSize ≤ file.bytes.length) ∧
      st.pos = st.count.toNat * (b.bufferSize + b.gapSize) ∧
      file.bytes.length < st.pos + b.bufferSize := by
  have hle := blocksIn_le_size b file.bytes.length hB
  have hrem := blocksIn_by_remainder b file.bytes.length hB
  have hn : blocksIn b file.bytes.length < 2 ^ 31 := by rw [hrem]; exact hint
  have hc := afterRounds_count b file (blocksIn b file.bytes.length) hn
  have hL := room_of_everySeekSucceeds b file hB hseek
  refine ⟨_, whileLoop_result b file fuel hB hL (by omega), ?_, ?_, ?_, ?_⟩
  · rw [hc, ← hrem]
  · intro k hk
    rw [hc] at hk
    have hk' : k < blocksIn b file.bytes.length := by exact_mod_cast hk
    refine ⟨_, stateAt_of_lt b file hB k hk', afterRounds_pos b file k, ?_⟩
    rw [afterRounds_pos]
    exact (blocksIn_lt_iff b file.bytes.length k hB).1 hk'
  · rw [hc, afterRounds_pos, Int.toNat_natCast]
  · rw [afterRounds_pos]
    have := (blocksIn_lt_iff b file.bytes.length (blocksIn b file.bytes.length) hB).not.1
      (Nat.lt_irrefl _)
    omega

/-- C1, amended, at a concrete input: the source build on the file of exactly
`BUFFER_SIZE` bytes. -/
theorem count_by_remainder_witness :
    ∃ st, whileLoop (sourceBuild false) oneBlockFile 65537 initState = some st ∧
      st.count = ((oneBlockFile.bytes.length /
          ((sourceBuild false).bufferSize + (sourceBuild false).gapSize) +
        (if oneBlockFile.bytes.length %
            ((sourceBuild false).bufferSize + (sourceBuild false).gapSize) <
              (sourceBuild false).bufferSize then 0 else 1) : Nat) : Int) ∧
      (∀ k : Nat, (k : Int) < st.count →
        ∃ s, stateAt (sourceBuild false) oneBlockFile k = some s ∧
          s.pos = k * ((sourceBuild false).bufferSize + (sourceBuild false).gapSize) ∧
          s.pos + (sourceBuild false).bufferSize ≤ oneBlockFile.bytes.length) ∧
      st.pos = st.count.toNat *
        ((sourceBuild false).bufferSize + (sourceBuild false).gapSize) ∧
      oneBlockFile.bytes.length < st.pos + (sourceBuild false).bufferSize :=
  count_by_remainder (sourceBuild false) oneBlockFile 65537
    (by rw [sourceBuild_bufferSize]; norm_num)
    (everySeekSucceeds_oneBlockFile false)
    (by rw [sourceBuild_bufferSize, sourceBuild_gapSize, oneBlockFile_length]; norm_num)
    (by rw [oneBlockFile_length]; norm_num)

/-- C9.  For a positive read size, a file of `S` bytes on which every seek
succeeds and whose block count fits an `int`, and enough calls of `fread`,
the loop ends with `count = floor((S + G) / (B + G))`, which is the number of
`k` with `k*(B+G) + B <= S`; a file of exactly `B` bytes gives `count = 1`.
A seek may carry the position past the end of the file; only the next
`fread` comes back short. -/
theorem count_is_number_of_whole_blocks (b : Build) (file : File) (fuel : Nat)
    (hB : 0 < b.bufferSize)
    (hseek : EverySeekSucceeds b file)
    (hint : (file.bytes.length + b.gapSize) / (b.bufferSize + b.gapSize) < 2 ^ 31)
    (hfuel : file.bytes.length < fuel) :
    ∃ st, whileLoop b file fuel initState = some st ∧
      st.count =
        (((file.bytes.length + b.gapSize) / (b.bufferSize + b.gapSize) : Nat) : Int) ∧
      ((Finset.range (file.bytes.length + 1)).filter
          (fun k => k * (b.bufferSize + b.gapSize) + b.bufferSize ≤ file.bytes.length)).card =
        (file.bytes.length + b.gapSize) / (b.bufferSize + b.gapSize) ∧
      (file.bytes.length = b.bufferSize → st.count = 1) := by
  have hle := blocksIn_le_size b file.bytes.length hB
  have hc := afterRounds_count b file (blocksIn b file.bytes.length) hint
  have hL := room_of_everySeekSucceeds b file hB hseek
  refine ⟨_, whileLoop_result b file fuel hB hL (by omega), hc, ?_, ?_⟩
  · have hset : (Finset.range (file.bytes.length + 1)).filter
        (fun k => k * (b.bufferSize + b.gapSize) + b.bufferSize ≤ file.bytes.length) =
        Finset.range (blocksIn b file.bytes.length) := by
      ext k
      simp only [Finset.mem_filter, Finset.mem_range]
      rw [← blocksIn_lt_iff b file.bytes.length k hB]
      constructor
      · exact fun h => h.2
      · exact fun h => ⟨by omega, h⟩
    rw [hset, Finset.card_range]
    rfl
  · intro hS
    rw [hc]
    have h1 : blocksIn b file.bytes.length = 1 := by
      unfold blocksIn
      rw [hS]
      exact Nat.div_self (by omega)
    rw [h1]
    rfl

/-- C9 at a concrete input: the source build on the file of exactly
`BUFFER_SIZE` bytes. -/
theorem count_is_number_of_whole_blocks_witness :
    ∃ st, whileLoop (sourceBuild false) oneBlockFile 65537 initState = some st ∧
      st.count = (((oneBlockFile.bytes.length + (sourceBuild false).gapSize) /
        ((sourceBuild false).bufferSize + (sourceBuild false).gapSize) : Nat) : Int) ∧
      ((Finset.range (oneBlockFile.bytes.length + 1)).filter
          (fun k => k * ((sourceBuild false).bufferSize + (sourceBuild false).gapSize) +
            (sourceBuild false).bufferSize ≤ oneBlockFile.bytes.length)).card =
        (oneBlockFile.bytes.length + (sourceBuild false).gapSize) /
          ((sourceBuild false).bufferSize + (sourceBuild false).gapSize) ∧
      (oneBlockFile.bytes.length = (sourceBuild false).bufferSize → st.count = 1) :=
  count_is_number_of_whole_blocks (sourceBuild false) oneBlockFile 65537
    (by rw [sourceBuild_bufferSize]; norm_num)
    (everySeekSucceeds_oneBlockFile false)
    (by rw [sourceBuild_bufferSize, sourceBuild_gapSize, oneBlockFile_length]; norm_num)
    (by rw [oneBlockFile_length]; norm_num)

/-- C10, counterexample.  On the file of exactly `BUFFER_SIZE` bytes the loop of
the source build is still running after `floor(S / (B + G)) + 1 = 1` calls of
`fread`: the first call reads the block, and only a second call comes back
short. -/
theorem loop_needs_one_more_read :
    oneBlockFile.bytes.length / (BUFFER_SIZE + GAP_SIZE) + 1 = 1 ∧
      whileLoop (sourceBuild false) oneBlockFile
        (oneBlockFile.bytes.length / (BUFFER_SIZE + GAP_SIZE) + 1) initState = none ∧
      (whileLoop (sourceBuild false) oneBlockFile 2 initState).isSome = true := by
  have hB : 0 < (sourceBuild false).bufferSize := by
    rw [sourceBuild_bufferSize]; norm_num
  have hn := sourceBuild_blocks_oneBlockFile false
  have hL := room_of_everySeekSucceeds _ _ hB (everySeekSucceeds_oneBlockFile false)
  have hq : oneBlockFile.bytes.length / (BUFFER_SIZE + GAP_SIZE) + 1 = 1 := by
    simp only [oneBlockFile_length, BUFFER_SIZE_eq, GAP_SIZE_eq]
  refine ⟨hq, ?_, ?_⟩
  · rw [hq]
    exact whileLoop_too_short _ _ 1 hB hL (by rw [hn])
  · rw [whileLoop_result _ _ 2 hB hL (by rw [hn]; norm_num)]
    rfl

/-- C10, amended.  For every file of `S` bytes and every positive read size and
gap size the loop terminates: some state is reached in which the read comes
back short, and every run with more than `S` calls of `fread` is left there.
When every seek succeeds, the position before the `(k+1)`-th call of `fread`
is `k*(B+G)`, the loop is left after exactly
`floor((S + G) / (B + G)) + 1` calls of `fread` and not before, and that
number is at most `floor(S / (B + G)) + 2`. -/
theorem loop_terminates_after_blocks_plus_one (b : Build) (file : File)
    (hB : 0 < b.bufferSize) (hG : 0 < b.gapSize) :
    (∃ n st, n ≤ file.bytes.length ∧ stateAt b file n = some st ∧
        loopStep b file st = none ∧
        ∀ fuel, file.bytes.length < fuel → whileLoop b file fuel initState = some st) ∧
      (EverySeekSucceeds b file →
        (∀ fuel, (whileLoop b file fuel initState).isSome = true ↔
          (file.bytes.length + b.gapSize) / (b.bufferSize + b.gapSize) + 1 ≤ fuel) ∧
        (∀ k, k ≤ (file.bytes.length + b.gapSize) / (b.bufferSize + b.gapSize) →
          ∃ st, stateAt b file k = some st ∧ st.pos = k * (b.bufferSize + b.gapSize)) ∧
        stateAt b file
          ((file.bytes.length + b.gapSize) / (b.bufferSize + b.gapSize) + 1) = none ∧
        (file.bytes.length + b.gapSize) / (b.bufferSize + b.gapSize) + 1 ≤
          file.bytes.length / (b.bufferSize + b.gapSize) + 2) := by
  have hdef : (file.bytes.length + b.gapSize) / (b.bufferSize + b.gapSize) =
      blocksIn b file.bytes.length := rfl
  have _hGpos : 0 < b.bufferSize + b.gapSize := Nat.add_pos_right _ hG
  constructor
  · obtain ⟨k, st, hk, hst, hnone⟩ := loop_exit b file
    refine ⟨k, st, hk, hst, hnone, fun fuel hfuel => ?_⟩
    rw [whileLoop_of_stateAt b file k fuel st hst hnone, if_pos (by omega)]
  · intro hseek
    have hL := room_of_everySeekSucceeds b file hB hseek
    rw [hdef]
    refine ⟨?_, ?_, ?_, ?_⟩
    · intro fuel
      by_cases hlt : blocksIn b file.bytes.length < fuel
      · rw [whileLoop_result b file fuel hB hL hlt]
        exact ⟨fun _ => hlt, fun _ => rfl⟩
      · rw [whileLoop_too_short b file fuel hB hL (by omega)]
        exact ⟨fun h => (by cases h), fun h => absurd h hlt⟩
    · intro k hk
      have hmono : k * (b.bufferSize + b.gapSize) ≤
          blocksIn b file.bytes.length * (b.bufferSize + b.gapSize) :=
        Nat.mul_le_mul_right _ hk
      exact ⟨_, stateAt_of_le b file hB k hk (by omega), afterRounds_pos b file k⟩
    · rw [stateAt, stateAt_of_le b file hB _ (Nat.le_refl _) hL, Option.some_bind]
      exact loopStep_afterRounds_last b file
    · have := blocksIn_le_quotient_succ b file.bytes.length hB
      omega

/-- C10, amended, at a concrete input: the source build on the file of exactly
`BUFFER_SIZE` bytes, on which every seek succeeds. -/
theorem loop_terminates_after_blocks_plus_one_witness :
    (∃ n st, n ≤ oneBlockFile.bytes.length ∧
        stateAt (sourceBuild false) oneBlockFile n = some st ∧
        loopStep (sourceBuild false) oneBlockFile st = none ∧
        ∀ fuel, oneBlockFile.bytes.length < fuel →
          whileLoop (sourceBuild false) oneBlockFile fuel initState = some st) ∧
      EverySeekSucceeds (sourceBuild false) oneBlockFile ∧
      (∀ fuel, (whileLoop (sourceBuild false) oneBlockFile fuel initState).isSome = true ↔
        (oneBlockFile.bytes.length + (sourceBuild false).gapSize) /
          ((sourceBuild false).bufferSize + (sourceBuild false).gapSize) + 1 ≤ fuel) ∧
      (∀ k, k ≤ (oneBlockFile.bytes.length + (sourceBuild false).gapSize) /
          ((sourceBuild false).bufferSize + (sourceBuild false).gapSize) →
        ∃ st, stateAt (sourceBuild false) oneBlockFile k = some st ∧
          st.pos = k * ((sourceBuild false).bufferSize + (sourceBuild false).gapSize)) ∧
      stateAt (sourceBuild false) oneBlockFile
        ((oneBlockFile.bytes.length + (sourceBuild false).gapSize) /
          ((sourceBuild false).bufferSize + (sourceBuild false).gapSize) + 1) = none ∧
      (oneBlockFile.bytes.length + (sourceBuild false).gapSize) /
          ((sourceBuild false).bufferSize + (sourceBuild false).gapSize) + 1 ≤
        oneBlockFile.bytes.length /
          ((sourceBuild false).bufferSize + (sourceBuild false).gapSize) + 2 :=
  ⟨(loop_terminates_after_blocks_plus_one (sourceBuild false) oneBlockFile
      (by rw [sourceBuild_bufferSize]; norm_num)
      (by rw [sourceBuild_gapSize]; norm_num)).1,
    everySeekSucceeds_oneBlockFile false,
    (loop_terminates_after_blocks_plus_one (sourceBuild false) oneBlockFile
      (by rw [sourceBuild_bufferSize]; norm_num)
      (by rw [sourceBuild_gapSize]; norm_num)).2 (everySeekSucceeds_oneBlockFile false)⟩

/-- C4.  For the empty file and every file shorter than `BUFFER_SIZE` bytes
that opens and takes the advice, the first read is short: the loop body never
runs, the loop is left in its initial state, and the program reports
`# of reads: 0` and `Sum of reads: 0` and ends with exit code 0. -/
theorem short_file_gives_no_read (b : Build) (w : World) (inv : Invocation)
    (fuel : Nat) (path : String) (file : File)
    (hshort : file.bytes.length < b.bufferSize)
    (hargs : inv.args = [path]) (hopen : w.fopen path = .ok file)
    (hadv : w.posix_fadvise path = 0) (hfuel : 1 ≤ fuel) :
    loopStep b file initState = none ∧
      whileLoop b file fuel initState = some { pos := 0, sum := 0, count := 0 } ∧
      main b w inv fuel =
        some { stdout := [ "# of reads: 0",
                           "Sum of reads: 0",
                           "Elapsed milliseconds: " ++
                             toString ((w.clockEnd - w.clockStart).tdiv 1000000) ]
               exitCode := 0 } := by
  have hstep : loopStep b file initState = none :=
    loopStep_short b file initState (by simpa [initState] using hshort)
  obtain ⟨f, rfl⟩ : ∃ f, fuel = f + 1 := ⟨fuel - 1, by omega⟩
  have hloop : whileLoop b file (f + 1) initState = some initState := by
    simp [whileLoop, hstep]
  refine ⟨hstep, hloop, ?_⟩
  rw [main_report b w inv (f + 1) path file _ hargs hopen hadv hloop]
  rfl

/-- C4 at a concrete input: the source build on the empty file. -/
theorem short_file_gives_no_read_witness :
    loopStep (sourceBuild false) emptyFile initState = none ∧
      whileLoop (sourceBuild false) emptyFile 1 initState =
        some { pos := 0, sum := 0, count := 0 } ∧
      main (sourceBuild false) (worldWith emptyFile 0 0) usualInvocation 1 =
        some { stdout := [ "# of reads: 0",
                           "Sum of reads: 0",
                           "Elapsed milliseconds: " ++
                             toString (((worldWith emptyFile 0 0).clockEnd -
                               (worldWith emptyFile 0 0).clockStart).tdiv 1000000) ]
               exitCode := 0 } :=
  short_file_gives_no_read (sourceBuild false) (worldWith emptyFile 0 0) usualInvocation 1
    "testfile.dat" emptyFile
    (by rw [sourceBuild_bufferSize]; exact Nat.succ_pos _)
    rfl rfl rfl (Nat.le_refl 1)

/-- C5.  When the number of arguments after the program name is not exactly
one (`argc != 2`), the program prints only the line
`Usage: <argv[0]> <test-file>` and returns 1, whatever the file system, the
advice and the clock are: nothing is opened, advised or read. -/
theorem wrong_argument_count_gives_usage (b : Build) (inv : Invocation)
    (hargs : inv.args.length ≠ 1) :
    ∀ (w : World) (fuel : Nat),
      main b w inv fuel =
        some { stdout := ["Usage: " ++ inv.progName ++ " <test-file>"], exitCode := 1 } := by
  intro w fuel
  exact main_usage b w inv fuel hargs

/-- C5 at a concrete input: the source build started without arguments, in a
world where every path opens to a five-byte file and in one where every path
opens to the file of `196608` bytes. -/
theorem wrong_argument_count_gives_usage_witness :
    bareInvocation.args.length ≠ 1 ∧
      main (sourceBuild false) (worldWith shortFile 0 0) bareInvocation 3 =
        some { stdout := ["Usage: " ++ bareInvocation.progName ++ " <test-file>"],
               exitCode := 1 } ∧
      main (sourceBuild false) (worldWith allOnesFile 1 2) bareInvocation 0 =
        some { stdout := ["Usage: " ++ bareInvocation.progName ++ " <test-file>"],
               exitCode := 1 } :=
  ⟨by decide,
    wrong_argument_count_gives_usage (sourceBuild false) bareInvocation (by decide)
      (worldWith shortFile 0 0) 3,
    wrong_argument_count_gives_usage (sourceBuild false) bareInvocation (by decide)
      (worldWith allOnesFile 1 2) 0⟩

/-- C6.  With enough calls of `fread` for the file at hand, every run ends in
one of four ways, decided by the first precondition that fails: a wrong
argument count gives the usage line alone and exit code 1; a file that cannot
be opened gives the text of the error alone and exit code 1; a failed advice
gives the line `fadvise failed` alone and exit code 1; otherwise the output is
exactly the three report lines `# of reads: `, `Sum of reads: `,
`Elapsed milliseconds: ` in this order and the exit code is 0. -/
theorem exit_code_and_lines_by_precondition (b : Build) (w : World) (inv : Invocation)
    (fuel : Nat)
    (hfuel : ∀ path file, inv.args = [path] → w.fopen path = .ok file → file.bytes.length < fuel) :
    (inv.args.length ≠ 1 ∧
        main b w inv fuel =
          some { stdout := ["Usage: " ++ inv.progName ++ " <test-file>"], exitCode := 1 }) ∨
      (∃ path msg, inv.args = [path] ∧ w.fopen path = .error msg ∧
        main b w inv fuel = some { stdout := [msg], exitCode := 1 }) ∨
      (∃ path file, inv.args = [path] ∧ w.fopen path = .ok file ∧
        w.posix_fadvise path ≠ 0 ∧
        main b w inv fuel = some { stdout := ["fadvise failed"], exitCode := 1 }) ∨
      (∃ path file st, inv.args = [path] ∧ w.fopen path = .ok file ∧
        w.posix_fadvise path = 0 ∧
        whileLoop b file fuel initState = some st ∧
        main b w inv fuel =
          some { stdout := [ "# of reads: " ++ toString st.count,
                             "Sum of reads: " ++ toString st.sum,
                             "Elapsed milliseconds: " ++
                               toString ((w.clockEnd - w.clockStart).tdiv 1000000) ]
                 exitCode := 0 }) := by
  by_cases hlen : inv.args.length = 1
  · right
    obtain ⟨path, hargs⟩ := List.length_eq_one.1 hlen
    cases hopen : w.fopen path with
    | error msg =>
      left
      refine ⟨path, msg, hargs, hopen, ?_⟩
      unfold main
      rw [hargs]
      simp only [hopen]
    | ok file =>
      right
      by_cases hadv : w.posix_fadvise path = 0
      · right
        obtain ⟨_, st, _, _, hst⟩ := whileLoop_final b file
        have hloop := hst fuel (hfuel path file hargs hopen)
        exact ⟨path, file, st, hargs, hopen, hadv, hloop,
          main_report b w inv fuel path file st hargs hopen hadv hloop⟩
      · left
        refine ⟨path, file, hargs, hopen, hadv, ?_⟩
        unfold main
        rw [hargs]
        simp only [hopen, ne_eq, hadv, not_false_eq_true, if_true]
  · left
    exact ⟨hlen, main_usage b w inv fuel hlen⟩

/-- C6 at a concrete input: the source build on a five-byte file that opens and
takes the advice, with six calls of `fread` allowed. -/
theorem exit_code_and_lines_by_precondition_witness :
    (usualInvocation.args.length ≠ 1 ∧
        main (sourceBuild false) (worldWith shortFile 0 0) usualInvocation 6 =
          some { stdout := ["Usage: " ++ usualInvocation.progName ++ " <test-file>"],
                 exitCode := 1 }) ∨
      (∃ path msg, usualInvocation.args = [path] ∧
        (worldWith shortFile 0 0).fopen path = .error msg ∧
        main (sourceBuild false) (worldWith shortFile 0 0) usualInvocation 6 =
          some { stdout := [msg], exitCode := 1 }) ∨
      (∃ path file, usualInvocation.args = [path] ∧
        (worldWith shortFile 0 0).fopen path = .ok file ∧
        (worldWith shortFile 0 0).posix_fadvise path ≠ 0 ∧
        main (sourceBuild false) (worldWith shortFile 0 0) usualInvocation 6 =
          some { stdout := ["fadvise failed"], exitCode := 1 }) ∨
      (∃ path file st, usualInvocation.args = [path] ∧
        (worldWith shortFile 0 0).fopen path = .ok file ∧
        (worldWith shortFile 0 0).posix_fadvise path = 0 ∧
        whileLoop (sourceBuild false) file 6 initState = some st ∧
        main (sourceBuild false) (worldWith shortFile 0 0) usualInvocation 6 =
          some { stdout := [ "# of reads: " ++ toString st.count,
                             "Sum of reads: " ++ toString st.sum,
                             "Elapsed milliseconds: " ++
                               toString (((worldWith shortFile 0 0).clockEnd -
                                 (worldWith shortFile 0 0).clockStart).tdiv 1000000) ]
                 exitCode := 0 }) :=
  exit_code_and_lines_by_precondition (sourceBuild false) (worldWith shortFile 0 0)
    usualInvocation 6
    (by
      intro path file _ hopen
      have hfile : shortFile = file := by
        simpa [worldWith] using hopen
      rw [← hfile]
      decide)

/-- C7.  The two lines that report the read count and the accumulator depend
on the file alone: two runs of one build, in any two worlds, under any program
names and paths, whose paths open to the same file and take the advice, leave
the loop in the same state, so they print the same first line and the same
second line and both end with exit code 0; only the line of the elapsed time
may differ. -/
theorem same_file_gives_same_count_and_sum (b : Build) (file : File)
    (w1 w2 : World) (inv1 inv2 : Invocation) (path1 path2 : String) (fuel1 fuel2 : Nat)
    (hargs1 : inv1.args = [path1]) (hargs2 : inv2.args = [path2])
    (hopen1 : w1.fopen path1 = .ok file) (hopen2 : w2.fopen path2 = .ok file)
    (hadv1 : w1.posix_fadvise path1 = 0) (hadv2 : w2.posix_fadvise path2 = 0)
    (hfuel1 : file.bytes.length < fuel1) (hfuel2 : file.bytes.length < fuel2) :
    ∃ n st, stateAt b file n = some st ∧ loopStep b file st = none ∧
      whileLoop b file fuel1 initState = some st ∧
      whileLoop b file fuel2 initState = some st ∧
      main b w1 inv1 fuel1 =
        some { stdout := [ "# of reads: " ++ toString st.count,
                           "Sum of reads: " ++ toString st.sum,
                           "Elapsed milliseconds: " ++
                             toString ((w1.clockEnd - w1.clockStart).tdiv 1000000) ]
               exitCode := 0 } ∧
      main b w2 inv2 fuel2 =
        some { stdout := [ "# of reads: " ++ toString st.count,
                           "Sum of reads: " ++ toString st.sum,
                           "Elapsed milliseconds: " ++
                             toString ((w2.clockEnd - w2.clockStart).tdiv 1000000) ]
               exitCode := 0 } := by
  obtain ⟨n, st, hn, hnone, hst⟩ := whileLoop_final b file
  have h1 := hst fuel1 hfuel1
  have h2 := hst fuel2 hfuel2
  exact ⟨n, st, hn, hnone, h1, h2,
    main_report b w1 inv1 fuel1 path1 file st hargs1 hopen1 hadv1 h1,
    main_report b w2 inv2 fuel2 path2 file st hargs2 hopen2 hadv2 h2⟩

/-- C7 at a concrete input: two runs of the source build on the file of
`196608` bytes `0xFF`, under different program names, paths, clocks and
amounts of fuel.  Both make two reads and print `# of reads: 2` and
`Sum of reads: 18446744073709551614`. -/
theorem same_file_gives_same_count_and_sum_witness :
    (∃ n st, stateAt (sourceBuild false) allOnesFile n = some st ∧
      loopStep (sourceBuild false) allOnesFile st = none ∧
      whileLoop (sourceBuild false) allOnesFile 196609 initState = some st ∧
      whileLoop (sourceBuild false) allOnesFile 200000 initState = some st ∧
      main (sourceBuild false) (worldWith allOnesFile 0 1000000) usualInvocation 196609 =
        some { stdout := [ "# of reads: " ++ toString st.count,
                           "Sum of reads: " ++ toString st.sum,
                           "Elapsed milliseconds: " ++
                             toString (((worldWith allOnesFile 0 1000000).clockEnd -
                               (worldWith allOnesFile 0 1000000).clockStart).tdiv 1000000) ]
               exitCode := 0 } ∧
      main (sourceBuild false) (worldWith allOnesFile 7 9000007) otherInvocation 200000 =
        some { stdout := [ "# of reads: " ++ toString st.count,
                           "Sum of reads: " ++ toString st.sum,
                           "Elapsed milliseconds: " ++
                             toString (((worldWith allOnesFile 7 9000007).clockEnd -
                               (worldWith allOnesFile 7 9000007).clockStart).tdiv 1000000) ]
               exitCode := 0 }) ∧
      main (sourceBuild false) (worldWith allOnesFile 0 1000000) usualInvocation 196609 =
        some { stdout := [ "# of reads: 2",
                           "Sum of reads: 18446744073709551614",
                           "Elapsed milliseconds: 1" ]
               exitCode := 0 } ∧
      main (sourceBuild false) (worldWith allOnesFile 7 9000007) otherInvocation 200000 =
        some { stdout := [ "# of reads: 2",
                           "Sum of reads: 18446744073709551614",
                           "Elapsed milliseconds: 9" ]
               exitCode := 0 } := by
  have hthm := same_file_gives_same_count_and_sum (sourceBuild false) allOnesFile
    (worldWith allOnesFile 0 1000000) (worldWith allOnesFile 7 9000007)
    usualInvocation otherInvocation "testfile.dat" "copy.dat" 196609 200000
    rfl rfl rfl rfl rfl rfl
    (by rw [allOnesFile_length]; norm_num) (by rw [allOnesFile_length]; norm_num)
  refine ⟨hthm, ?_, ?_⟩
  · rw [main_report (sourceBuild false) (worldWith allOnesFile 0 1000000) usualInvocation
      196609 "testfile.dat" allOnesFile _ rfl rfl rfl
      (whileLoop_allOnesFile 196609 (by norm_num))]
    rfl
  · rw [main_report (sourceBuild false) (worldWith allOnesFile 7 9000007) otherInvocation
      200000 "copy.dat" allOnesFile _ rfl rfl rfl
      (whileLoop_allOnesFile 200000 (by norm_num))]
    rfl

/-- C8, counterexample.  On the file of `196608` bytes `0xFF` the source build
enters its second iteration with `sum = 2^64 - 1` and leaves it with
`sum = 2^64 - 2`: the addition wraps around and `sum` has become smaller. -/
theorem sum_decreases_on_wraparound :
    stateAt (sourceBuild false) allOnesFile 1 =
        some { pos := 131072, sum := 2 ^ 64 - 1, count := 1 } ∧
      loopStep (sourceBuild false) allOnesFile { pos := 131072, sum := 2 ^ 64 - 1, count := 1 } =
        some { pos := 262144, sum := 2 ^ 64 - 2, count := 2 } ∧
      ¬ ((2 : Nat) ^ 64 - 1 ≤ 2 ^ 64 - 2) := by
  refine ⟨?_, loopStep_allOnesFile_second, by norm_num⟩
  rw [stateAt, stateAt, Option.some_bind]
  exact loopStep_allOnesFile_first

/-- C8, amended.  In every iteration of the loop the position moves forward,
`sum` becomes `(sum + first eight bytes of the block) mod 2^64`, so that it is
not smaller than before exactly when this addition does not pass `2^64`, and
`count` grows by one, so that it is greater than before, as long as it was
below the largest `int`. -/
theorem iteration_updates (b : Build) (file : File) (k : Nat) (st st' : LoopState)
    (hreach : stateAt b file k = some st)
    (hstep : loopStep b file st = some st') :
    st.pos < st'.pos ∧
      st'.sum = (st.sum + blockWord b file st.pos) % 2 ^ 64 ∧
      (st.sum ≤ st'.sum ↔ st.sum + blockWord b file st.pos < 2 ^ 64) ∧
      (st.count < 2 ^ 31 - 1 → st'.count = st.count + 1 ∧ st.count < st'.count) := by
  obtain ⟨hs, hc0, hc1⟩ := stateAt_inRange b file k st hreach
  obtain ⟨hB, _, rfl⟩ := (loopStep_eq_some_iff b file st st').1 hstep
  have hw := blockWord_lt b file st.pos
  have hpos := fseek_pos_ge file.offsetLimit (st.pos + b.bufferSize) b.gapSize
  refine ⟨by dsimp only; omega, rfl, ?_, ?_⟩
  · dsimp only
    constructor
    · intro h
      by_contra hge
      omega
    · intro h
      rw [Nat.mod_eq_of_lt h]
      omega
  · intro hlt
    dsimp only
    rw [wrapInt32_of_range (st.count + 1) (by omega) (by omega)]
    exact ⟨rfl, by omega⟩

/-- C8, amended, at a concrete input: the first iteration of the source build on
the file of `196608` bytes `0xFF`. -/
theorem iteration_updates_witness :
    initState.pos < ({ pos := 131072, sum := 2 ^ 64 - 1, count := 1 } : LoopState).pos ∧
      ({ pos := 131072, sum := 2 ^ 64 - 1, count := 1 } : LoopState).sum =
        (initState.sum + blockWord (sourceBuild false) allOnesFile initState.pos) % 2 ^ 64 ∧
      (initState.sum ≤ ({ pos := 131072, sum := 2 ^ 64 - 1, count := 1 } : LoopState).sum ↔
        initState.sum + blockWord (sourceBuild false) allOnesFile initState.pos < 2 ^ 64) ∧
      (initState.count < 2 ^ 31 - 1 →
        ({ pos := 131072, sum := 2 ^ 64 - 1, count := 1 } : LoopState).count =
            initState.count + 1 ∧
          initState.count <
            ({ pos := 131072, sum := 2 ^ 64 - 1, count := 1 } : LoopState).count) :=
  iteration_updates (sourceBuild false) allOnesFile 0 initState
    { pos := 131072, sum := 2 ^ 64 - 1, count := 1 } rfl loopStep_allOnesFile_first

end DiskReadSeek
